import Mathlib

/-!
AR844 sound level meter to MQTT publisher.

A shallow embedding of the acquisition and aggregation core of
`mosqitto_ar844.c` (frame decoding in `main_loop`, the aggregation window
`process_sample` / `get_next_period`, the poll timer `timespec_subtract`
and the publish retry loop `publish_sample`), followed by the properties
established about it.

Conventions of the embedding.

* `uint16_t` and `uint32_t` values are natural numbers, reduced modulo
  `2^16` and `2^32` wherever the C code can leave the range.
* `int` values are integers; every store into an `int` goes through
  `to_int` (two's complement, 32 bits).  Signed overflow is undefined in
  C; the properties that depend on the sample counter assume it stays
  below `2^31`.
* The field `status` of a `struct libusb_transfer` has the type
  `enum libusb_transfer_status`, whose enumerators are all non-negative; the
  compiler represents it as an unsigned 32-bit integer.  It is a natural
  number here, the store `status = -1` leaves `to_uint32 (-1)` (4294967295) in
  it, and the test `status >= 0` always succeeds.
* `time_t` and the fields of `struct timespec` are integers (the source
  does not fix their width); C division is `Int.tdiv` (truncation toward
  zero).
* A call of `time(NULL)` is a read of the environment: the value it
  returns is an explicit argument of the function that makes the call.
-/

namespace AR844

/-! ## Configuration constants -/

/-- The poll period in milliseconds: `const int meter_poll_period = 500`. -/
def meter_poll_period : Int := 500

/-- The accumulation period in seconds: `const int meter_accumulation_period = 1*60`. -/
def meter_accumulation_period : Int := 1 * 60

/-- The length of an inbound packet: `#define PACKET_INT_IN_LEN 8`. -/
def PACKET_INT_IN_LEN : Int := 8

/-- The value of `MOSQ_ERR_SUCCESS` in `mosquitto.h`. -/
def MOSQ_ERR_SUCCESS : Int := 0

/-- The value of `MOSQ_ERR_NO_CONN` in `mosquitto.h`. -/
def MOSQ_ERR_NO_CONN : Int := 4

/-- The value of `LIBUSB_TRANSFER_COMPLETED` in `libusb.h`, the first enumerator of
`enum libusb_transfer_status`. -/
def LIBUSB_TRANSFER_COMPLETED : Nat := 0

/-! ## Machine integers -/

/-- Conversion to a C `int`: 32 bits, two's complement. -/
def to_int (x : Int) : Int := (x + 2 ^ 31) % 2 ^ 32 - 2 ^ 31

/-- Conversion to `uint32_t`. -/
def to_uint32 (x : Int) : Nat := (x % 2 ^ 32).toNat

/-- Conversion to `uint16_t`. -/
def to_uint16 (x : Int) : Nat := (x % 2 ^ 16).toNat

/-! ## The aggregation window -/

/-- The global variables `dBSum`, `dBMin`, `dBMax`, `sampleCount`, `next_period`. -/
structure Globals where
  /-- Holds `uint32_t dBSum`. -/
  dBSum : Nat
  /-- Holds `uint16_t dBMin`. -/
  dBMin : Nat
  /-- Holds `uint16_t dBMax`. -/
  dBMax : Nat
  /-- Holds `int sampleCount`. -/
  sampleCount : Int
  /-- Holds `time_t next_period`. -/
  next_period : Int
  deriving DecidableEq, Repr

/-- The globals at process start: the initialisers of the source, and zero for
`next_period`, which has none. -/
def Globals.init : Globals :=
  { dBSum := 0, dBMin := 0, dBMax := 0, sampleCount := 0, next_period := 0 }

/-- The values `process_sample` formats into the published message: the period end
(`next_period` at the time of formatting), `dBAvg`, `dBMin`, `dBMax` and `weight`. -/
structure Snapshot where
  /-- The period end printed by `strftime`. -/
  time : Int
  /-- The local `uint32_t dBAvg`. -/
  avg : Nat
  /-- The value of `dBMin` printed. -/
  min : Nat
  /-- The value of `dBMax` printed. -/
  max : Nat
  /-- The weighting character printed. -/
  weight : Char
  deriving DecidableEq, Repr

/-- The function `get_next_period`; `now` is the value `time(NULL)` returns in it. -/
def get_next_period (g : Globals) (now : Int) : Globals :=
  { g with
    next_period :=
      Int.tdiv (now + meter_accumulation_period) meter_accumulation_period
        * meter_accumulation_period }

/-- The function `process_sample`.  `t_check` is the value `time(NULL)` returns in the
test `time(NULL) >= next_period`, and `t_next` the value it returns inside
`get_next_period` (read only when a snapshot is emitted).  The result is the new
globals and the snapshot handed to `publish_sample`, if any.  The parameter `dB` is a
`uint16_t`: callers pass values below `2^16`.  In `dBSum / sampleCount` the `int`
divisor is converted to `unsigned`; a zero divisor (undefined in C, reachable only
after the counter has wrapped around) yields 0 here. -/
def process_sample (g : Globals) (dB : Nat) (fast : Bool) (weight : Char) (range : Int)
    (t_check t_next : Int) : Globals × Option Snapshot :=
  let _ := fast
  let _ := range
  let g1 : Globals :=
    if g.sampleCount = 0 then
      { g with dBSum := to_uint32 dB, dBMax := to_uint16 (to_uint32 dB),
               dBMin := to_uint16 (to_uint16 (to_uint32 dB)) }
    else
      let g' := { g with dBSum := to_uint32 (g.dBSum + dB) }
      if dB < g'.dBMin then { g' with dBMin := dB }
      else if dB > g'.dBMax then { g' with dBMax := dB }
      else g'
  let g2 := { g1 with sampleCount := to_int (g1.sampleCount + 1) }
  if t_check ≥ g2.next_period then
    let dBAvg := g2.dBSum / to_uint32 g2.sampleCount
    let snap : Snapshot :=
      { time := g2.next_period, avg := dBAvg, min := g2.dBMin, max := g2.dBMax,
        weight := weight }
    let g3 := get_next_period g2 t_next
    ({ g3 with sampleCount := 0 }, some snap)
  else
    (g2, none)

/-- One call of `process_sample` made by `main_loop`: its arguments and the values
the wall clock returns during the call. -/
structure Sample where
  /-- The argument `dB`. -/
  dB : Nat
  /-- The argument `fast`. -/
  fast : Bool
  /-- The argument `weight`. -/
  weight : Char
  /-- The argument `range`. -/
  range : Int
  /-- The clock value read by the test `time(NULL) >= next_period`. -/
  t_check : Int
  /-- The clock value read inside `get_next_period`. -/
  t_next : Int
  deriving DecidableEq, Repr

/-- One call of `process_sample` on a `Sample`. -/
def step (g : Globals) (s : Sample) : Globals × Option Snapshot :=
  process_sample g s.dB s.fast s.weight s.range s.t_check s.t_next

/-- The successive calls of `process_sample` on a list of samples: the final globals
and the snapshots published, in order. -/
def run (g : Globals) : List Sample → Globals × List Snapshot
  | [] => (g, [])
  | s :: rest =>
    let r := step g s
    let r' := run r.1 rest
    (r'.1, r.2.toList ++ r'.2)

/-- The values of `next_period` set by `get_next_period` after each snapshot that the
calls of `process_sample` on a list of samples emit, in order. -/
def boundaries (g : Globals) : List Sample → List Int
  | [] => []
  | s :: rest =>
    let r := step g s
    match r.2 with
    | some _ => r.1.next_period :: boundaries r.1 rest
    | none => boundaries r.1 rest

/-- The state in which `main` enters `main_loop`: the call `get_next_period()` at a
clock value `t0` on the initial globals. -/
def startup (t0 : Int) : Globals := get_next_period Globals.init t0

/-- All values taken by `next_period` in a run: the one set at startup, then the one
set after each emitted snapshot. -/
def period_ends (t0 : Int) (samples : List Sample) : List Int :=
  (startup t0).next_period :: boundaries (startup t0) samples

/-! ## The poll timer -/

/-- The fields of `struct timespec` used by the source. -/
structure timespec where
  /-- Whole seconds. -/
  tv_sec : Int
  /-- Nanoseconds. -/
  tv_nsec : Int
  deriving DecidableEq, Repr

/-- The function `timespec_subtract`: the difference `x - y` in milliseconds, as the
source computes it. -/
def timespec_subtract (x y : timespec) : Int :=
  let sec_diff := to_int ((x.tv_sec - y.tv_sec) * 1000)
  let ns_diff := to_int (Int.tdiv (x.tv_nsec - y.tv_nsec) 1000000)
  to_int (sec_diff + ns_diff)

/-- A call `publish_sample` makes to the broker library. -/
inductive BrokerCall where
  /-- A call of `mosquitto_publish` with the message, and the value it returned. -/
  | publish (msg : String) (r : Int)
  /-- A call of `mosquitto_reconnect`. -/
  | reconnect
  deriving DecidableEq, Repr

/-- The loop `for (int i = 0; i < 2; i++)` of `publish_sample`, entered with loop
variable `i`.  `broker k` is the value the call of `mosquitto_publish` in iteration `k`
returns.  The result is the calls made to the broker library, in order. -/
def publish_loop (broker : Nat → Int) (msg : String) (i : Nat) : List BrokerCall :=
  if i < 2 then
    let r := broker i
    if r = MOSQ_ERR_SUCCESS then
      [BrokerCall.publish msg r]
    else if r = MOSQ_ERR_NO_CONN then
      BrokerCall.publish msg r :: BrokerCall.reconnect :: publish_loop broker msg (i + 1)
    else
      BrokerCall.publish msg r :: publish_loop broker msg (i + 1)
  else []
termination_by 2 - i

/-- The function `publish_sample`: the calls it makes to the broker library before it
returns. -/
def publish_sample (broker : Nat → Int) (msg : String) : List BrokerCall :=
  publish_loop broker msg 0

/-- The number of calls of `mosquitto_publish` in a trace. -/
def attempts (tr : List BrokerCall) : Nat :=
  tr.countP (fun c => match c with
    | BrokerCall.publish _ _ => true
    | BrokerCall.reconnect => false)

/-- The number of calls of `mosquitto_publish` in a trace that returned success. -/
def deliveries (tr : List BrokerCall) : Nat :=
  tr.countP (fun c => match c with
    | BrokerCall.publish _ r => decide (r = MOSQ_ERR_SUCCESS)
    | BrokerCall.reconnect => false)

/-! ## The main loop -/

/-- The fields of `struct libusb_transfer` the loop reads and writes, and the number
of times the transfer was handed to `libusb_submit_transfer`. -/
structure Transfer where
  /-- The field `status`, an unsigned enumeration; the loop stores `-1` in it, that is
  `to_uint32 (-1)`, before each submission. -/
  status : Nat
  /-- The field `actual_length`. -/
  actual_length : Int
  /-- The number of calls of `libusb_submit_transfer` on the transfer. -/
  submitted : Nat
  deriving DecidableEq, Repr

/-- The buffer `uint8_t answer[PACKET_INT_IN_LEN]`. -/
abbrev Packet := Fin 8 → Fin 256

/-- The arguments `main_loop` computes from the buffer `answer` for the call of
`process_sample`. -/
structure Args where
  /-- The argument `dB`. -/
  dB : Nat
  /-- The argument `fast`: the `int measureSpeed` converted to `bool`. -/
  fast : Bool
  /-- The argument `weight`. -/
  weight : Char
  /-- The argument `range`. -/
  range : Int
  deriving DecidableEq, Repr

/-- The local `int measureSpeed = answer[2] >> 6`. -/
def measureSpeed (answer : Packet) : Int := (((answer 2).val >>> 6 : Nat) : Int)

/-- The decoding of a full packet in `main_loop`: the locals `dB`, `measureSpeed`,
`measureCurveType`, `measureRange` and the arguments built from them. -/
def decode (answer : Packet) : Args :=
  let dB : Nat := to_uint16 ((((answer 0).val <<< 8) ||| (answer 1).val : Nat) : Int)
  let measureCurveType : Int := ((((answer 2).val >>> 4) &&& 0x01 : Nat) : Int)
  let measureRange : Int := (((answer 2).val &&& 0x07 : Nat) : Int)
  { dB := dB,
    fast := decide (measureSpeed answer ≠ 0),
    weight := if measureCurveType = 0 then 'A' else 'Z',
    range := measureRange }

/-- The state of `main_loop` between two calls of
`libusb_handle_events_timeout_completed`, together with the aggregation globals, the
snapshots published so far and the number of calls of `process_sample`. -/
structure Loop where
  /-- The aggregation globals. -/
  g : Globals
  /-- The inbound transfer `recv`. -/
  recv : Transfer
  /-- The outbound transfer `send`. -/
  send : Transfer
  /-- The buffer `answer`. -/
  answer : Packet
  /-- The local `last`. -/
  last : timespec
  /-- The snapshots handed to `publish_sample` so far. -/
  published : List Snapshot
  /-- The number of calls of `process_sample` so far. -/
  calls : Nat

/-- The block `if ( recv->status >= 0 ) { ... }` of the loop body.  The test compares
an unsigned value with zero, so the block is entered in every iteration, also while
the transfer is in flight. -/
def recv_block (l : Loop) (t_check t_next : Int) : Loop :=
  if (l.recv.status : Int) ≥ 0 then
    let l1 : Loop :=
      if l.recv.status = LIBUSB_TRANSFER_COMPLETED then
        if l.recv.actual_length = PACKET_INT_IN_LEN then
          let a := decode l.answer
          let r := process_sample l.g a.dB a.fast a.weight a.range t_check t_next
          { l with g := r.1, published := l.published ++ r.2.toList, calls := l.calls + 1 }
        else l
      else l
    { l1 with
      recv := { l1.recv with status := to_uint32 (-1), submitted := l1.recv.submitted + 1 } }
  else l

/-- The block `if ( send->status >= 0 ) { ... }` of the loop body; `now` is the value
`clock_gettime` returns in it.  The test compares an unsigned value with zero, so the
block is entered in every iteration, also while the transfer is in flight. -/
def send_block (l : Loop) (now : timespec) : Loop :=
  if (l.send.status : Int) ≥ 0 then
    let diff := timespec_subtract now l.last
    if diff ≥ 500 then
      { l with last := now,
               send := { l.send with status := to_uint32 (-1),
                                     submitted := l.send.submitted + 1 } }
    else l
  else l

/-! ## Auxiliary notions for the proofs -/

/-- The globals of `process_sample` after the statement `sampleCount++`, before the
boundary test. -/
def accumulated (g : Globals) (dB : Nat) : Globals :=
  let g1 : Globals :=
    if g.sampleCount = 0 then
      { g with dBSum := to_uint32 dB, dBMax := to_uint16 (to_uint32 dB),
               dBMin := to_uint16 (to_uint16 (to_uint32 dB)) }
    else
      let g' := { g with dBSum := to_uint32 (g.dBSum + dB) }
      if dB < g'.dBMin then { g' with dBMin := dB }
      else if dB > g'.dBMax then { g' with dBMax := dB }
      else g'
  { g1 with sampleCount := to_int (g1.sampleCount + 1) }

/-- The globals hold the statistics of the readings `vals` seen so far in the current
window; nothing is said of `dBSum`, `dBMin`, `dBMax` while the window is empty. -/
structure Window (g : Globals) (vals : List Nat) : Prop where
  count : g.sampleCount = vals.length
  sum : vals ≠ [] → g.dBSum = vals.sum % 2 ^ 32
  min_mem : vals ≠ [] → g.dBMin ∈ vals
  min_le : ∀ v ∈ vals, g.dBMin ≤ v
  max_mem : vals ≠ [] → g.dBMax ∈ vals
  le_max : ∀ v ∈ vals, v ≤ g.dBMax

/-! ## Concrete inputs -/

/-- Globals right after a snapshot: the counter is zero, the other statistics still
hold values of the previous window. -/
def stale : Globals :=
  { dBSum := 4000, dBMin := 7, dBMax := 9000, sampleCount := 0, next_period := 60 }

/-- The readings 132 and 724, arriving before the boundary 60. -/
def scenarioB_pre : List Sample :=
  [{ dB := 132, fast := false, weight := 'A', range := 0, t_check := 10, t_next := 10 },
   { dB := 724, fast := false, weight := 'A', range := 0, t_check := 20, t_next := 20 }]

/-- The reading 500, arriving at the boundary 60. -/
def scenarioB_last : Sample :=
  { dB := 500, fast := false, weight := 'A', range := 0, t_check := 60, t_next := 60 }

/-- A reading of 65535 tenths arriving at clock value `t`. -/
def loud (t : Int) : Sample :=
  { dB := 65535, fast := false, weight := 'A', range := 0, t_check := t, t_next := t }

/-- A window of 65538 readings of 65535 tenths: 65537 before the boundary 60 and one
at the boundary. -/
def overflow_window : List Sample := List.replicate 65537 (loud 0) ++ [loud 60]

/-- A run of three samples: a late first snapshot at clock value 200 (boundary 60
overdue), a quiet sample, and a second snapshot at 240. -/
def late_run : List Sample :=
  [{ dB := 1500, fast := false, weight := 'A', range := 0, t_check := 200, t_next := 201 },
   { dB := 1400, fast := false, weight := 'A', range := 0, t_check := 202, t_next := 202 },
   { dB := 1300, fast := false, weight := 'A', range := 0, t_check := 240, t_next := 240 }]

/-- A loop state whose outbound transfer has completed and was last issued at
0 s 500 999 999 ns. -/
def idle_loop : Loop :=
  { g := Globals.init,
    recv := { status := to_uint32 (-1), actual_length := 0, submitted := 1 },
    send := { status := 0, actual_length := 8, submitted := 1 },
    answer := fun _ => 0,
    last := { tv_sec := 0, tv_nsec := 500999999 },
    published := [],
    calls := 0 }

/-- A packet with the given first three bytes and zeros after them. -/
def packet_of (b0 b1 b2 : Fin 256) : Packet :=
  fun i => if i = 0 then b0 else if i = 1 then b1 else if i = 2 then b2 else 0

/-- A loop state whose inbound transfer has completed with the given status and
length, holding a packet of level 1500 tenths (bytes `0x05`, `0xDC`) and speed field 1;
the boundary 60 is not reached yet. -/
def recv_loop (status : Nat) (actual_length : Int) : Loop :=
  { g := { dBSum := 300, dBMin := 100, dBMax := 200, sampleCount := 2, next_period := 60 },
    recv := { status := status, actual_length := actual_length, submitted := 1 },
    send := { status := to_uint32 (-1), actual_length := 0, submitted := 1 },
    answer := packet_of 0x05 0xDC 0x40,
    last := { tv_sec := 0, tv_nsec := 0 },
    published := [],
    calls := 2 }

/-- A broker that answers "not connected" to the first call of `mosquitto_publish` and
success to the later ones. -/
def reconnecting_broker : Nat → Int := fun k => if k = 0 then MOSQ_ERR_NO_CONN else MOSQ_ERR_SUCCESS

/-! ## Properties -/

theorem to_uint32_natCast (n : Nat) : to_uint32 (n : Int) = n % 2 ^ 32 := by
  unfold to_uint32
  omega

theorem to_uint16_natCast (n : Nat) : to_uint16 (n : Int) = n % 2 ^ 16 := by
  unfold to_uint16
  omega

theorem to_int_of_range (x : Int) (h0 : -(2 ^ 31) ≤ x) (h1 : x < 2 ^ 31) : to_int x = x := by
  unfold to_int
  omega

theorem process_sample_eq (g : Globals) (dB : Nat) (fast : Bool) (weight : Char)
    (range : Int) (t_check t_next : Int) :
    process_sample g dB fast weight range t_check t_next =
      if t_check ≥ (accumulated g dB).next_period then
        ({ get_next_period (accumulated g dB) t_next with sampleCount := 0 },
          some { time := (accumulated g dB).next_period,
                 avg := (accumulated g dB).dBSum / to_uint32 (accumulated g dB).sampleCount,
                 min := (accumulated g dB).dBMin, max := (accumulated g dB).dBMax,
                 weight := weight })
      else (accumulated g dB, none) := rfl

theorem accumulated_next_period (g : Globals) (dB : Nat) :
    (accumulated g dB).next_period = g.next_period := by
  unfold accumulated
  simp only
  split_ifs <;> rfl

theorem accumulated_first (g : Globals) (dB : Nat) (h0 : g.sampleCount = 0)
    (hdB : dB < 2 ^ 16) :
    accumulated g dB =
      { g with dBSum := dB, dBMin := dB, dBMax := dB, sampleCount := 1 } := by
  have e32 : to_uint32 (dB : Int) = dB := by rw [to_uint32_natCast]; omega
  have e16 : to_uint16 (dB : Int) = dB := by rw [to_uint16_natCast]; omega
  unfold accumulated
  simp only [h0, if_true, e32, e16]
  rfl

theorem accumulated_next (g : Globals) (dB : Nat) (h0 : g.sampleCount ≠ 0)
    (hle : g.dBMin ≤ g.dBMax) :
    accumulated g dB =
      { g with dBSum := (g.dBSum + dB) % 2 ^ 32, dBMin := min g.dBMin dB,
               dBMax := max g.dBMax dB,
               sampleCount := to_int (g.sampleCount + 1) } := by
  have e32 : to_uint32 ((g.dBSum : Int) + (dB : Int)) = (g.dBSum + dB) % 2 ^ 32 := by
    rw [← Nat.cast_add, to_uint32_natCast]
  unfold accumulated
  simp only [h0, if_false, e32]
  by_cases h1 : dB < g.dBMin
  · have e1 : min g.dBMin dB = dB := min_eq_right (by omega)
    have e2 : max g.dBMax dB = g.dBMax := max_eq_left (by omega)
    simp only [h1, if_true, e1, e2]
  · by_cases h2 : dB > g.dBMax
    · have e1 : min g.dBMin dB = g.dBMin := min_eq_left (by omega)
      have e2 : max g.dBMax dB = dB := max_eq_right (by omega)
      simp only [h1, h2, if_true, if_false, e1, e2]
    · have e1 : min g.dBMin dB = g.dBMin := min_eq_left (by omega)
      have e2 : max g.dBMax dB = g.dBMax := max_eq_left (by omega)
      simp only [h1, h2, if_false, e1, e2]

theorem Window.accumulated {g : Globals} {vals : List Nat} (hw : Window g vals)
    (dB : Nat) (hdB : dB < 2 ^ 16) (hlen : vals.length + 1 < 2 ^ 31) :
    Window (AR844.accumulated g dB) (vals ++ [dB]) := by
  rcases vals with _ | ⟨v, vs⟩
  · have h0 : g.sampleCount = 0 := by simpa using hw.count
    rw [accumulated_first g dB h0 hdB]
    refine ⟨by simp, ?_, by simp, by simp, by simp, by simp⟩
    intro _
    simp only [List.nil_append, List.sum_singleton]
    omega
  · have hne : v :: vs ≠ [] := by simp
    have hc : g.sampleCount = ((v :: vs).length : Int) := hw.count
    have hlen' : (v :: vs).length + 1 < 2 ^ 31 := hlen
    have h0 : g.sampleCount ≠ 0 := by
      rw [hc]; simp only [List.length_cons]; omega
    have hle : g.dBMin ≤ g.dBMax := hw.le_max _ (hw.min_mem hne)
    rw [accumulated_next g dB h0 hle]
    refine ⟨?_, ?_, ?_, ?_, ?_, ?_⟩
    · show to_int (g.sampleCount + 1) = _
      rw [to_int_of_range _ (by omega) (by omega), hc]
      simp
    · intro _
      show (g.dBSum + dB) % 2 ^ 32 = _
      rw [hw.sum hne, List.sum_append, List.sum_singleton]
      omega
    · intro _
      show min g.dBMin dB ∈ _
      rcases Nat.le_total g.dBMin dB with h | h
      · rw [min_eq_left h]
        exact List.mem_append_left _ (hw.min_mem hne)
      · rw [min_eq_right h]; simp
    · intro x hx
      show min g.dBMin dB ≤ x
      rcases List.mem_append.1 hx with h | h
      · exact le_trans (min_le_left _ _) (hw.min_le x h)
      · have : x = dB := by simpa using h
        rw [this]; exact min_le_right _ _
    · intro _
      show max g.dBMax dB ∈ _
      rcases Nat.le_total dB g.dBMax with h | h
      · rw [max_eq_left h]
        exact List.mem_append_left _ (hw.max_mem hne)
      · rw [max_eq_right h]; simp
    · intro x hx
      show x ≤ max g.dBMax dB
      rcases List.mem_append.1 hx with h | h
      · exact le_trans (hw.le_max x h) (le_max_left _ _)
      · have : x = dB := by simpa using h
        rw [this]; exact le_max_right _ _

theorem Window.empty {g : Globals} (h0 : g.sampleCount = 0) : Window g [] :=
  ⟨by simpa using h0, by simp, by simp, by simp, by simp, by simp⟩

theorem step_quiet (g : Globals) (s : Sample) (h : s.t_check < g.next_period) :
    step g s = (accumulated g s.dB, none) := by
  unfold step
  rw [process_sample_eq, accumulated_next_period, if_neg (by omega)]

theorem step_emit (g : Globals) (s : Sample) (h : g.next_period ≤ s.t_check) :
    step g s =
      ({ get_next_period (accumulated g s.dB) s.t_next with sampleCount := 0 },
        some { time := g.next_period,
               avg := (accumulated g s.dB).dBSum / to_uint32 (accumulated g s.dB).sampleCount,
               min := (accumulated g s.dB).dBMin, max := (accumulated g s.dB).dBMax,
               weight := s.weight }) := by
  unfold step
  rw [process_sample_eq, accumulated_next_period, if_pos (by omega)]

theorem run_append (g : Globals) (l1 l2 : List Sample) :
    run g (l1 ++ l2) = ((run (run g l1).1 l2).1, (run g l1).2 ++ (run (run g l1).1 l2).2) := by
  induction l1 generalizing g with
  | nil => simp [run]
  | cons s l1 ih =>
    show run g (s :: (l1 ++ l2)) = _
    simp only [run, ih, List.append_assoc]

/-- Samples that arrive before the boundary are accumulated and publish nothing. -/
theorem run_quiet (pre : List Sample) (g : Globals) (vals : List Nat) (hw : Window g vals)
    (hdB : ∀ s ∈ pre, s.dB < 2 ^ 16) (hlen : vals.length + pre.length < 2 ^ 31)
    (hpre : ∀ s ∈ pre, s.t_check < g.next_period) :
    (run g pre).2 = [] ∧ Window (run g pre).1 (vals ++ pre.map Sample.dB) ∧
      (run g pre).1.next_period = g.next_period := by
  induction pre generalizing g vals with
  | nil => simpa [run] using hw
  | cons s pre ih =>
    have hs : s.t_check < g.next_period := hpre s (by simp)
    have hlen1 : vals.length + (pre.length + 1) < 2 ^ 31 := by simpa using hlen
    have hw1 : Window (accumulated g s.dB) (vals ++ [s.dB]) :=
      hw.accumulated s.dB (hdB s (by simp)) (by omega)
    have hnp : (accumulated g s.dB).next_period = g.next_period :=
      accumulated_next_period g s.dB
    obtain ⟨h1, h2, h3⟩ := ih (accumulated g s.dB) (vals ++ [s.dB]) hw1
      (fun x hx => hdB x (by simp [hx]))
      (by simp only [List.length_append, List.length_singleton]; omega)
      (fun x hx => by rw [hnp]; exact hpre x (by simp [hx]))
    simp only [run, step_quiet g s hs, Option.toList, List.nil_append, List.map_cons]
    refine ⟨h1, ?_, by rw [h3, hnp]⟩
    simpa using h2

/-- A window of samples from an empty window: all but the last arrive before the
boundary, the last one at or after it.  Exactly one snapshot is published, formatted
from globals that hold the statistics of exactly these samples. -/
theorem run_window (g : Globals) (pre : List Sample) (last : Sample)
    (h0 : g.sampleCount = 0) (hdB : ∀ s ∈ pre ++ [last], s.dB < 2 ^ 16)
    (hlen : (pre ++ [last]).length < 2 ^ 31)
    (hpre : ∀ s ∈ pre, s.t_check < g.next_period) (hlast : g.next_period ≤ last.t_check) :
    ∃ gA : Globals, Window gA ((pre ++ [last]).map Sample.dB) ∧
      gA.next_period = g.next_period ∧
      run g (pre ++ [last]) =
        ({ get_next_period gA last.t_next with sampleCount := 0 },
          [{ time := g.next_period, avg := gA.dBSum / to_uint32 gA.sampleCount,
             min := gA.dBMin, max := gA.dBMax, weight := last.weight }]) := by
  have hlen1 : pre.length + 1 < 2 ^ 31 := by simpa using hlen
  obtain ⟨h1, h2, h3⟩ := run_quiet pre g [] (Window.empty h0)
    (fun x hx => hdB x (by simp [hx])) (by simp only [List.length_nil]; omega) hpre
  have hw : Window (accumulated (run g pre).1 last.dB) ((pre ++ [last]).map Sample.dB) := by
    have := h2.accumulated last.dB (hdB last (by simp)) (by simp only [List.nil_append, List.length_map]; omega)
    simpa using this
  refine ⟨accumulated (run g pre).1 last.dB, hw, ?_, ?_⟩
  · rw [accumulated_next_period, h3]
  · rw [run_append, h1]
    simp only [run, step_emit (run g pre).1 last (by rw [h3]; exact hlast), h3,
      Option.toList, List.nil_append, List.append_nil]

theorem Window.count_uint32 {g : Globals} {vals : List Nat} (hw : Window g vals)
    (hlen : vals.length < 2 ^ 31) : to_uint32 g.sampleCount = vals.length := by
  rw [hw.count, to_uint32_natCast]
  omega

theorem sum_le_of_uint16 (vals : List Nat) (h : ∀ v ∈ vals, v < 2 ^ 16) :
    vals.sum ≤ vals.length * 65535 := by
  induction vals with
  | nil => simp
  | cons v vs ih =>
    have h1 : v < 2 ^ 16 := h v (by simp)
    have h2 := ih (fun x hx => h x (by simp [hx]))
    simp only [List.sum_cons, List.length_cons]
    omega

/-- Claim C1. In a window that starts with `sampleCount == 0` (whatever `dBMin`, `dBMax`,
`dBSum` still hold) and consists of the readings `pre` that arrive before the boundary
followed by the reading `last` that arrives at or after it (at most `INT_MAX` readings,
each a `uint16_t`), exactly one snapshot is emitted, on the last reading; its `min` is
the minimum and its `max` the maximum of exactly these readings, so `min ≤ v ≤ max` for
each of them; and after every non-empty prefix of the window `sampleCount > 0` and
`dBMin ≤ v ≤ dBMax` for every reading `v` observed so far. -/
theorem window_min_max (g : Globals) (pre : List Sample) (last : Sample)
    (h0 : g.sampleCount = 0) (hdB : ∀ s ∈ pre ++ [last], s.dB < 2 ^ 16)
    (hlen : (pre ++ [last]).length < 2 ^ 31)
    (hpre : ∀ s ∈ pre, s.t_check < g.next_period) (hlast : g.next_period ≤ last.t_check) :
    ∃ snap : Snapshot, (run g (pre ++ [last])).2 = [snap] ∧
      List.minimum ((pre ++ [last]).map Sample.dB) = (snap.min : WithTop Nat) ∧
      List.maximum ((pre ++ [last]).map Sample.dB) = (snap.max : WithBot Nat) ∧
      (∀ s ∈ pre ++ [last], snap.min ≤ s.dB ∧ s.dB ≤ snap.max) ∧
      (∀ k, 0 < k → k ≤ pre.length →
        0 < (run g (pre.take k)).1.sampleCount ∧
        ∀ s ∈ pre.take k,
          (run g (pre.take k)).1.dBMin ≤ s.dB ∧ s.dB ≤ (run g (pre.take k)).1.dBMax) := by
  obtain ⟨gA, hw, _, hrun⟩ := run_window g pre last h0 hdB hlen hpre hlast
  have hne : (pre ++ [last]).map Sample.dB ≠ [] := by simp
  refine ⟨_, by rw [hrun], ?_, ?_, ?_, ?_⟩
  · exact List.minimum_eq_coe_iff.2 ⟨hw.min_mem hne, hw.min_le⟩
  · exact List.maximum_eq_coe_iff.2 ⟨hw.max_mem hne, hw.le_max⟩
  · intro s hs
    have hm : s.dB ∈ (pre ++ [last]).map Sample.dB := List.mem_map_of_mem _ hs
    exact ⟨hw.min_le _ hm, hw.le_max _ hm⟩
  · intro k hk hkl
    have hlen1 : pre.length + 1 < 2 ^ 31 := by simpa using hlen
    obtain ⟨_, h2, _⟩ := run_quiet (pre.take k) g [] (Window.empty h0)
      (fun x hx => hdB x (List.mem_append_left _ (List.mem_of_mem_take hx)))
      (by simp only [List.length_nil, List.length_take]; omega)
      (fun x hx => hpre x (List.mem_of_mem_take hx))
    refine ⟨?_, ?_⟩
    · rw [h2.count]
      simp only [List.nil_append, List.length_map, List.length_take]
      omega
    · intro s hs
      have hm : s.dB ∈ [] ++ (pre.take k).map Sample.dB := by
        simpa using List.mem_map_of_mem Sample.dB hs
      exact ⟨h2.min_le _ hm, h2.le_max _ hm⟩

/-- Claim C2 (amended). In a window as in C1 with `N` readings, `1 ≤ N ≤ INT_MAX`, each a
`uint16_t`, the `avg` of the emitted snapshot is the truncating quotient by `N` of the
sum of the readings reduced modulo `2^32` (`dBSum` is a `uint32_t`); it equals
`floor(sum(values)/N)` whenever the true sum is below `2^32`, in particular whenever
`N ≤ 65537`. -/
theorem window_avg (g : Globals) (pre : List Sample) (last : Sample)
    (h0 : g.sampleCount = 0) (hdB : ∀ s ∈ pre ++ [last], s.dB < 2 ^ 16)
    (hlen : (pre ++ [last]).length < 2 ^ 31)
    (hpre : ∀ s ∈ pre, s.t_check < g.next_period) (hlast : g.next_period ≤ last.t_check) :
    ∃ snap : Snapshot, (run g (pre ++ [last])).2 = [snap] ∧
      snap.avg = ((pre ++ [last]).map Sample.dB).sum % 2 ^ 32 / (pre ++ [last]).length ∧
      (((pre ++ [last]).map Sample.dB).sum < 2 ^ 32 →
        snap.avg = ((pre ++ [last]).map Sample.dB).sum / (pre ++ [last]).length) ∧
      ((pre ++ [last]).length ≤ 65537 →
        snap.avg = ((pre ++ [last]).map Sample.dB).sum / (pre ++ [last]).length) := by
  obtain ⟨gA, hw, _, hrun⟩ := run_window g pre last h0 hdB hlen hpre hlast
  have hne : (pre ++ [last]).map Sample.dB ≠ [] := by simp
  have hc : to_uint32 gA.sampleCount = (pre ++ [last]).length := by
    rw [hw.count_uint32 (by simpa using hlen), List.length_map]
  have havg : gA.dBSum / to_uint32 gA.sampleCount =
      ((pre ++ [last]).map Sample.dB).sum % 2 ^ 32 / (pre ++ [last]).length := by
    rw [hc, hw.sum hne]
  refine ⟨_, by rw [hrun], havg, ?_, ?_⟩
  · intro hs
    show gA.dBSum / to_uint32 gA.sampleCount = _
    rw [havg, Nat.mod_eq_of_lt hs]
  · intro hN
    have hb := sum_le_of_uint16 ((pre ++ [last]).map Sample.dB) (by
      intro v hv
      obtain ⟨s, hs, rfl⟩ := List.mem_map.1 hv
      exact hdB s hs)
    rw [List.length_map] at hb
    have hs : ((pre ++ [last]).map Sample.dB).sum < 2 ^ 32 := by omega
    show gA.dBSum / to_uint32 gA.sampleCount = _
    rw [havg, Nat.mod_eq_of_lt hs]

/-- Witness of C1: the readings 132, 724, 500 on globals with stale statistics. -/
theorem window_min_max_witness :
    ∃ snap : Snapshot, (run stale (scenarioB_pre ++ [scenarioB_last])).2 = [snap] ∧
      List.minimum ((scenarioB_pre ++ [scenarioB_last]).map Sample.dB)
        = (snap.min : WithTop Nat) ∧
      List.maximum ((scenarioB_pre ++ [scenarioB_last]).map Sample.dB)
        = (snap.max : WithBot Nat) ∧
      (∀ s ∈ scenarioB_pre ++ [scenarioB_last], snap.min ≤ s.dB ∧ s.dB ≤ snap.max) ∧
      (∀ k, 0 < k → k ≤ scenarioB_pre.length →
        0 < (run stale (scenarioB_pre.take k)).1.sampleCount ∧
        ∀ s ∈ scenarioB_pre.take k,
          (run stale (scenarioB_pre.take k)).1.dBMin ≤ s.dB ∧
            s.dB ≤ (run stale (scenarioB_pre.take k)).1.dBMax) :=
  window_min_max stale scenarioB_pre scenarioB_last (by decide) (by decide) (by decide)
    (by decide) (by decide)

/-- Witness of C2 (amended): the readings 132, 724, 500 of scenario B. -/
theorem window_avg_witness :
    ∃ snap : Snapshot, (run stale (scenarioB_pre ++ [scenarioB_last])).2 = [snap] ∧
      snap.avg = ((scenarioB_pre ++ [scenarioB_last]).map Sample.dB).sum % 2 ^ 32
        / (scenarioB_pre ++ [scenarioB_last]).length ∧
      (((scenarioB_pre ++ [scenarioB_last]).map Sample.dB).sum < 2 ^ 32 →
        snap.avg = ((scenarioB_pre ++ [scenarioB_last]).map Sample.dB).sum
          / (scenarioB_pre ++ [scenarioB_last]).length) ∧
      ((scenarioB_pre ++ [scenarioB_last]).length ≤ 65537 →
        snap.avg = ((scenarioB_pre ++ [scenarioB_last]).map Sample.dB).sum
          / (scenarioB_pre ++ [scenarioB_last]).length) :=
  window_avg stale scenarioB_pre scenarioB_last (by decide) (by decide) (by decide)
    (by decide) (by decide)

theorem overflow_window_sum : (overflow_window.map Sample.dB).sum = 65538 * 65535 := by
  unfold overflow_window
  rw [List.map_append, List.map_replicate, List.sum_append, List.sum_replicate]
  rfl

theorem overflow_window_length : overflow_window.length = 65538 := by
  unfold overflow_window
  rw [List.length_append, List.length_replicate]
  rfl

/-- Claim C2 (counterexample). For 65538 readings of 65535 tenths in one window (65537
before the boundary, one at it) the published `avg` is 0, while
`floor(sum(values)/N)` is 65535: the `uint32_t` sum has wrapped around. -/
theorem window_avg_overflow :
    (run (startup 0) overflow_window).2.map Snapshot.avg = [0] ∧
      (overflow_window.map Sample.dB).sum / overflow_window.length = 65535 := by
  have hnp : (startup 0).next_period = 60 := by decide
  obtain ⟨gA, hw, _, hrun⟩ := run_window (startup 0) (List.replicate 65537 (loud 0)) (loud 60)
    (by decide)
    (by
      intro s hs
      rcases List.mem_append.1 hs with h | h
      · rw [List.eq_of_mem_replicate h]; decide
      · rw [List.mem_singleton.1 h]; decide)
    (by rw [List.length_append, List.length_replicate]; decide)
    (by
      intro s hs
      rw [List.eq_of_mem_replicate hs, hnp]; decide)
    (by rw [hnp]; decide)
  change Window gA (overflow_window.map Sample.dB) at hw
  change run (startup 0) overflow_window = _ at hrun
  have hne : overflow_window.map Sample.dB ≠ [] := by
    intro h
    have := congrArg List.length h
    rw [List.length_map, overflow_window_length] at this
    exact absurd this (by decide)
  have hc : to_uint32 gA.sampleCount = 65538 := by
    rw [hw.count_uint32 (by rw [List.length_map, overflow_window_length]; decide),
      List.length_map, overflow_window_length]
  have hs : gA.dBSum = 65534 := by
    rw [hw.sum hne, overflow_window_sum]
    decide
  refine ⟨?_, ?_⟩
  · rw [hrun]
    show [gA.dBSum / to_uint32 gA.sampleCount] = [0]
    rw [hc, hs]
  · rw [overflow_window_sum, overflow_window_length]

/-! ### Period boundaries -/

theorem get_next_period_floor (g : Globals) (now : Int) (h : 0 ≤ now) :
    (get_next_period g now).next_period = (now / 60 + 1) * 60 := by
  unfold get_next_period meter_accumulation_period
  simp only
  rw [Int.tdiv_eq_ediv (by omega) (by norm_num)]
  norm_num
  omega

theorem ceil_of_not_dvd (now : Int) (h : ¬ (60 : Int) ∣ now) :
    ⌈(now : ℚ) / 60⌉ = now / 60 + 1 := by
  rw [Int.ceil_eq_iff]
  have h1 : (60 : ℤ) * (now / 60) + now % 60 = now := Int.ediv_add_emod now 60
  have h2 : 0 < now % 60 := by omega
  have h3 : now % 60 < 60 := by omega
  have e : (now : ℚ) = 60 * ((now / 60 : ℤ) : ℚ) + ((now % 60 : ℤ) : ℚ) := by
    exact_mod_cast h1.symm
  have h2q : (0 : ℚ) < ((now % 60 : ℤ) : ℚ) := by exact_mod_cast h2
  have h3q : ((now % 60 : ℤ) : ℚ) < 60 := by exact_mod_cast h3
  push_cast
  constructor
  · rw [lt_div_iff₀ (by norm_num)]; linarith
  · rw [div_le_iff₀ (by norm_num)]; linarith

theorem ceil_of_dvd (now : Int) (h : (60 : Int) ∣ now) : ⌈(now : ℚ) / 60⌉ = now / 60 := by
  obtain ⟨k, rfl⟩ := h
  have : ((60 * k : ℤ) : ℚ) / 60 = (k : ℚ) := by push_cast; field_simp
  rw [this, Int.ceil_intCast]
  omega

/-- Claim C3 (counterexample). At `now = 120`, a multiple of the period, `get_next_period`
stores 180, whereas `ceil(now / P) * P` is 120. -/
theorem next_period_not_ceil :
    (get_next_period Globals.init 120).next_period = 180 ∧
      ⌈(120 : ℚ) / 60⌉ * 60 = 120 ∧
      (get_next_period Globals.init 120).next_period ≠ ⌈(120 : ℚ) / 60⌉ * 60 := by
  have h : ⌈(120 : ℚ) / 60⌉ = 2 := by norm_num
  rw [h]
  decide

/-- Claim C3 (amended). For every non-negative clock value `now` and the period length
`P = 60`, the boundary that `get_next_period` stores in `next_period` is an exact
multiple of `P`, namely `(floor(now / P) + 1) * P`: the least multiple of `P` strictly
greater than `now`.  It equals `ceil(now / P) * P` when `now` is not a multiple of `P`,
and `ceil(now / P) * P + P` when it is. -/
theorem next_period_boundary (g : Globals) (now : Int) (h : 0 ≤ now) :
    (60 : Int) ∣ (get_next_period g now).next_period ∧
      (get_next_period g now).next_period = (now / 60 + 1) * 60 ∧
      now < (get_next_period g now).next_period ∧
      (get_next_period g now).next_period ≤ now + 60 ∧
      (¬ (60 : Int) ∣ now →
        (get_next_period g now).next_period = ⌈(now : ℚ) / 60⌉ * 60) ∧
      ((60 : Int) ∣ now →
        (get_next_period g now).next_period = ⌈(now : ℚ) / 60⌉ * 60 + 60) := by
  have e := get_next_period_floor g now h
  refine ⟨?_, e, ?_, ?_, ?_, ?_⟩
  · rw [e]; exact Dvd.intro_left _ rfl
  · rw [e]; omega
  · rw [e]; omega
  · intro hd
    rw [e, ceil_of_not_dvd now hd]
  · intro hd
    rw [e, ceil_of_dvd now hd]
    ring

/-- Witness of C3 (amended): the clock value 125. -/
theorem next_period_boundary_witness :
    (0 : Int) ≤ 125 ∧
      ((60 : Int) ∣ (get_next_period Globals.init 125).next_period ∧
      (get_next_period Globals.init 125).next_period = (125 / 60 + 1) * 60 ∧
      125 < (get_next_period Globals.init 125).next_period ∧
      (get_next_period Globals.init 125).next_period ≤ 125 + 60 ∧
      (¬ (60 : Int) ∣ 125 →
        (get_next_period Globals.init 125).next_period = ⌈((125 : Int) : ℚ) / 60⌉ * 60) ∧
      ((60 : Int) ∣ 125 →
        (get_next_period Globals.init 125).next_period
          = ⌈((125 : Int) : ℚ) / 60⌉ * 60 + 60)) :=
  ⟨by decide, next_period_boundary Globals.init 125 (by decide)⟩

theorem get_next_period_dvd (g : Globals) (now : Int) :
    (60 : Int) ∣ (get_next_period g now).next_period :=
  Dvd.intro_left _ rfl

theorem get_next_period_gt (g : Globals) (now : Int) :
    now < (get_next_period g now).next_period := by
  unfold get_next_period meter_accumulation_period
  simp only
  rcases le_or_lt 0 (now + 1 * 60) with h | h
  · rw [Int.tdiv_eq_ediv h (by norm_num)]
    omega
  · have e : (now + 1 * 60).tdiv (1 * 60) = -((-(now + 1 * 60)).tdiv (1 * 60)) := by
      rw [Int.neg_tdiv, neg_neg]
    rw [e, Int.tdiv_eq_ediv (by omega) (by norm_num)]
    omega

theorem step_next_period (g : Globals) (s : Sample) :
    (s.t_check < g.next_period ∧ (step g s).2 = none ∧
        (step g s).1.next_period = g.next_period) ∨
      (g.next_period ≤ s.t_check ∧
        (step g s).2.map Snapshot.time = some g.next_period ∧
        (60 : Int) ∣ (step g s).1.next_period ∧ s.t_next < (step g s).1.next_period) := by
  rcases lt_or_le s.t_check g.next_period with h | h
  · left
    rw [step_quiet g s h]
    exact ⟨h, rfl, accumulated_next_period g s.dB⟩
  · right
    rw [step_emit g s h]
    exact ⟨h, rfl, get_next_period_dvd (accumulated g s.dB) s.t_next,
      get_next_period_gt (accumulated g s.dB) s.t_next⟩

theorem boundaries_spec (samples : List Sample) (g : Globals)
    (hclock : ∀ s ∈ samples, s.t_check ≤ s.t_next) :
    (∀ b ∈ boundaries g samples, (60 : Int) ∣ b ∧ g.next_period < b) ∧
      (boundaries g samples).Pairwise (· < ·) := by
  induction samples generalizing g with
  | nil => simp [boundaries]
  | cons s rest ih =>
    have hs : s.t_check ≤ s.t_next := hclock s (by simp)
    obtain ⟨ih1, ih2⟩ := ih (step g s).1 (fun x hx => hclock x (by simp [hx]))
    rcases step_next_period g s with ⟨_, h2, h3⟩ | ⟨h1, h2, h3, h4⟩
    · have e : boundaries g (s :: rest) = boundaries (step g s).1 rest := by
        simp only [boundaries, h2]
      rw [e]
      refine ⟨fun b hb => ?_, ih2⟩
      have := ih1 b hb
      rw [h3] at this
      exact this
    · obtain ⟨snap, hsnap⟩ : ∃ snap, (step g s).2 = some snap := by
        cases hr : (step g s).2 with
        | none => rw [hr] at h2; simp at h2
        | some snap => exact ⟨snap, rfl⟩
      have e : boundaries g (s :: rest) =
          (step g s).1.next_period :: boundaries (step g s).1 rest := by
        simp only [boundaries, hsnap]
      rw [e]
      have hlt : g.next_period < (step g s).1.next_period := by omega
      refine ⟨fun b hb => ?_, List.pairwise_cons.2 ⟨fun b hb => (ih1 b hb).2, ih2⟩⟩
      rcases List.mem_cons.1 hb with rfl | hb
      · exact ⟨h3, hlt⟩
      · exact ⟨(ih1 b hb).1, lt_trans hlt (ih1 b hb).2⟩

theorem snapshot_times (samples : List Sample) (g : Globals) :
    (run g samples).2.map Snapshot.time ++ [(run g samples).1.next_period] =
      g.next_period :: boundaries g samples := by
  induction samples generalizing g with
  | nil => simp [run, boundaries]
  | cons s rest ih =>
    have ih' := ih (step g s).1
    rcases step_next_period g s with ⟨_, h2, h3⟩ | ⟨h1, h2, h3, h4⟩
    · simp only [run, boundaries, h2, Option.toList, List.nil_append]
      rw [ih', h3]
    · obtain ⟨snap, hsnap⟩ : ∃ snap, (step g s).2 = some snap := by
        cases hr : (step g s).2 with
        | none => rw [hr] at h2; simp at h2
        | some snap => exact ⟨snap, rfl⟩
      have ht : snap.time = g.next_period := by
        rw [hsnap] at h2
        simpa using h2
      simp only [run, boundaries, hsnap, Option.toList, List.singleton_append, List.map_cons,
        List.cons_append, List.nil_append, ht]
      rw [ih']

theorem period_ends_spec (t0 : Int) (samples : List Sample)
    (hclock : ∀ s ∈ samples, s.t_check ≤ s.t_next) :
    (∀ b ∈ period_ends t0 samples, (60 : Int) ∣ b) ∧
      (period_ends t0 samples).Pairwise (· < ·) := by
  obtain ⟨h1, h2⟩ := boundaries_spec samples (startup t0) hclock
  unfold period_ends
  refine ⟨fun b hb => ?_, List.pairwise_cons.2 ⟨fun b hb => (h1 b hb).2, h2⟩⟩
  rcases List.mem_cons.1 hb with rfl | hb
  · exact get_next_period_dvd Globals.init t0
  · exact (h1 b hb).1

/-- Claim C4. Boundary determinism.  In every run in which the clock does not go
backwards between the boundary test of a call of `process_sample` and the read in
`get_next_period` of the same call (as is the case for a non-decreasing clock), for
every startup time and every sequence of readings, the successive values of
`next_period` (the one set at startup, then the one set after each snapshot) are
`k * P` for strictly increasing integers `k`; every snapshot is stamped with the
boundary that was in force, so no boundary is used for two snapshots. -/
theorem boundary_determinism (t0 : Int) (samples : List Sample)
    (hclock : ∀ s ∈ samples, s.t_check ≤ s.t_next) :
    ∃ ks : List Int,
      period_ends t0 samples = ks.map (fun k => k * meter_accumulation_period) ∧
      ks.Pairwise (· < ·) ∧
      (run (startup t0) samples).2.map Snapshot.time
        ++ [(run (startup t0) samples).1.next_period] = period_ends t0 samples ∧
      ((run (startup t0) samples).2.map Snapshot.time).Nodup := by
  obtain ⟨hd, hp⟩ := period_ends_spec t0 samples hclock
  have htimes := snapshot_times samples (startup t0)
  refine ⟨(period_ends t0 samples).map (fun b => b / 60), ?_, ?_, htimes, ?_⟩
  · rw [List.map_map]
    conv_lhs => rw [← List.map_id (period_ends t0 samples)]
    apply List.map_congr_left
    intro b hb
    have := hd b hb
    show b = b / 60 * (1 * 60)
    omega
  · rw [List.pairwise_map]
    refine hp.imp_of_mem ?_
    intro a b ha hb hab
    have h1 := hd a ha
    have h2 := hd b hb
    show a / 60 < b / 60
    omega
  · have hsub : List.Sublist ((run (startup t0) samples).2.map Snapshot.time)
        (period_ends t0 samples) := by
      have : period_ends t0 samples = (run (startup t0) samples).2.map Snapshot.time
          ++ [(run (startup t0) samples).1.next_period] := htimes.symm
      rw [this]
      exact List.sublist_append_left _ _
    have hp' : ((run (startup t0) samples).2.map Snapshot.time).Pairwise (· < ·) :=
      hp.sublist hsub
    exact hp'.imp (fun h => ne_of_lt h)

/-- Witness of C4: a run whose first snapshot is 140 s late. -/
theorem boundary_determinism_witness :
    ∃ ks : List Int,
      period_ends 0 late_run = ks.map (fun k => k * meter_accumulation_period) ∧
      ks.Pairwise (· < ·) ∧
      (run (startup 0) late_run).2.map Snapshot.time
        ++ [(run (startup 0) late_run).1.next_period] = period_ends 0 late_run ∧
      ((run (startup 0) late_run).2.map Snapshot.time).Nodup :=
  boundary_determinism 0 late_run (by decide)

/-! ### The poll timer -/

/-- The test `send->status >= 0` does not hold back a transfer marked in flight: with
`status` left at `to_uint32 (-1)` by the previous submission, the block still submits
the transfer again once `timespec_subtract` reports 500. -/
theorem send_block_in_flight :
    (send_block { idle_loop with send := { idle_loop.send with status := to_uint32 (-1) } }
        { tv_sec := 1, tv_nsec := 0 }).send.submitted = idle_loop.send.submitted + 1 := by
  decide

/-! ### Frame decoding -/

theorem decode_dB (a : Packet) : (decode a).dB = 256 * (a 0).val + (a 1).val := by
  have h0 : (a 0).val < 256 := (a 0).isLt
  have h1 : (a 1).val < 2 ^ 8 := (a 1).isLt
  have e : ((a 0).val <<< 8) ||| (a 1).val = 2 ^ 8 * (a 0).val + (a 1).val := by
    rw [Nat.mul_add_lt_is_or h1, Nat.shiftLeft_eq, Nat.mul_comm]
  show to_uint16 ((((a 0).val <<< 8) ||| (a 1).val : Nat) : Int) = _
  rw [e, to_uint16_natCast]
  omega

theorem decode_dB_or (a : Packet) : (decode a).dB = ((a 0).val <<< 8) ||| (a 1).val := by
  have h1 : (a 1).val < 2 ^ 8 := (a 1).isLt
  have e : ((a 0).val <<< 8) ||| (a 1).val = 2 ^ 8 * (a 0).val + (a 1).val := by
    rw [Nat.mul_add_lt_is_or h1, Nat.shiftLeft_eq, Nat.mul_comm]
  rw [decode_dB, e]
  rfl

/-- Claim C6 (failing input). For a packet whose speed field (bits 7-6 of byte 2) is 2,
the `fast` argument that `main_loop` hands to `process_sample` is `true`: the `int`
`measureSpeed` is converted to `bool`, so every non-zero speed counts as fast. -/
theorem fast_flag_at_speed_two :
    measureSpeed (packet_of 0 0 0x80) = 2 ∧ (decode (packet_of 0 0 0x80)).fast = true ∧
      measureSpeed (packet_of 0 0 0xC0) = 3 ∧ (decode (packet_of 0 0 0xC0)).fast = true ∧
      measureSpeed (packet_of 0 0 0x40) = 1 ∧ (decode (packet_of 0 0 0x40)).fast = true ∧
      measureSpeed (packet_of 0 0 0x00) = 0 ∧ (decode (packet_of 0 0 0x00)).fast = false := by
  decide

/-- Claim C7. For every 8-byte packet that completes successfully, decoding cannot fail;
the level handed to `process_sample` is `(byte0 << 8) | byte1`, that is
`256 * byte0 + byte1`, a value in `0 .. 65535` that is the same for all packets with
the same first two bytes; for the bytes `0x05`, `0xDC` it is 1500. -/
theorem decode_level (l : Loop) (t_check t_next : Int)
    (hs : l.recv.status = LIBUSB_TRANSFER_COMPLETED)
    (hl : l.recv.actual_length = PACKET_INT_IN_LEN) :
    (decode l.answer).dB = ((l.answer 0).val <<< 8) ||| (l.answer 1).val ∧
      (decode l.answer).dB = 256 * (l.answer 0).val + (l.answer 1).val ∧
      (decode l.answer).dB < 65536 ∧
      (∀ a : Packet, a 0 = l.answer 0 → a 1 = l.answer 1 →
        (decode a).dB = (decode l.answer).dB) ∧
      (∀ b2 : Fin 256, (decode (packet_of 0x05 0xDC b2)).dB = 1500) ∧
      (recv_block l t_check t_next).calls = l.calls + 1 ∧
      (recv_block l t_check t_next).g =
        (process_sample l.g (decode l.answer).dB (decode l.answer).fast
          (decode l.answer).weight (decode l.answer).range t_check t_next).1 := by
  have h0 : (l.answer 0).val < 256 := (l.answer 0).isLt
  have h1 : (l.answer 1).val < 256 := (l.answer 1).isLt
  have hs0 : ((LIBUSB_TRANSFER_COMPLETED : Nat) : Int) ≥ 0 := Int.ofNat_nonneg _
  refine ⟨decode_dB_or _, decode_dB _, ?_, ?_, ?_, ?_, ?_⟩
  · rw [decode_dB]; omega
  · intro a e0 e1
    rw [decode_dB, decode_dB, e0, e1]
  · intro b2
    rw [decode_dB]
    rfl
  · simp only [recv_block, hs0, hs, hl, if_true]
  · simp only [recv_block, hs0, hs, hl, if_true]

/-- Witness of C7: a completed 8-byte transfer holding the bytes `0x05`, `0xDC`. -/
theorem decode_level_witness :
    (decode (recv_loop 0 8).answer).dB
        = (((recv_loop 0 8).answer 0).val <<< 8) ||| ((recv_loop 0 8).answer 1).val ∧
      (decode (recv_loop 0 8).answer).dB
        = 256 * ((recv_loop 0 8).answer 0).val + ((recv_loop 0 8).answer 1).val ∧
      (decode (recv_loop 0 8).answer).dB < 65536 ∧
      (∀ a : Packet, a 0 = (recv_loop 0 8).answer 0 → a 1 = (recv_loop 0 8).answer 1 →
        (decode a).dB = (decode (recv_loop 0 8).answer).dB) ∧
      (∀ b2 : Fin 256, (decode (packet_of 0x05 0xDC b2)).dB = 1500) ∧
      (recv_block (recv_loop 0 8) 10 10).calls = (recv_loop 0 8).calls + 1 ∧
      (recv_block (recv_loop 0 8) 10 10).g =
        (process_sample (recv_loop 0 8).g (decode (recv_loop 0 8).answer).dB
          (decode (recv_loop 0 8).answer).fast (decode (recv_loop 0 8).answer).weight
          (decode (recv_loop 0 8).answer).range 10 10).1 :=
  decode_level (recv_loop 0 8) 10 10 (by decide) (by decide)

/-- Claim C9. When the inbound transfer has a status other than
`LIBUSB_TRANSFER_COMPLETED` or a length other than 8 (every completion that is not a
successful transfer of exactly 8 bytes), the packet is not decoded: `process_sample`
is not called, the aggregation globals (`sampleCount`, `dBSum`, `dBMin`, `dBMax`,
`next_period`) are unchanged, nothing is published, and the inbound transfer is
marked with `-1` and submitted again. -/
theorem reject_frame (l : Loop) (t_check t_next : Int)
    (hbad : l.recv.status ≠ LIBUSB_TRANSFER_COMPLETED ∨
      l.recv.actual_length ≠ PACKET_INT_IN_LEN) :
    (recv_block l t_check t_next).calls = l.calls ∧
      (recv_block l t_check t_next).g = l.g ∧
      (recv_block l t_check t_next).published = l.published ∧
      (recv_block l t_check t_next).recv.status = to_uint32 (-1) ∧
      (recv_block l t_check t_next).recv.submitted = l.recv.submitted + 1 ∧
      (recv_block l t_check t_next).send = l.send ∧
      (recv_block l t_check t_next).last = l.last := by
  have hc : (l.recv.status : Int) ≥ 0 := Int.ofNat_nonneg _
  have hs0 : ((LIBUSB_TRANSFER_COMPLETED : Nat) : Int) ≥ 0 := Int.ofNat_nonneg _
  rcases hbad with h | h
  · simp only [recv_block, hc, h, if_true, if_false, and_self]
  · by_cases h1 : l.recv.status = LIBUSB_TRANSFER_COMPLETED
    · simp only [recv_block, hs0, h, h1, if_true, if_false, and_self]
    · simp only [recv_block, hc, h1, if_true, if_false, and_self]

/-- Witness of C9: a 7-byte packet at a clock value past the boundary. -/
theorem reject_frame_witness :
    (recv_block (recv_loop 0 7) 61 61).calls = (recv_loop 0 7).calls ∧
      (recv_block (recv_loop 0 7) 61 61).g = (recv_loop 0 7).g ∧
      (recv_block (recv_loop 0 7) 61 61).published = (recv_loop 0 7).published ∧
      (recv_block (recv_loop 0 7) 61 61).recv.status = to_uint32 (-1) ∧
      (recv_block (recv_loop 0 7) 61 61).recv.submitted = (recv_loop 0 7).recv.submitted + 1 ∧
      (recv_block (recv_loop 0 7) 61 61).send = (recv_loop 0 7).send ∧
      (recv_block (recv_loop 0 7) 61 61).last = (recv_loop 0 7).last :=
  reject_frame (recv_loop 0 7) 61 61 (Or.inr (by decide))

/-! ### The publish retry loop -/

theorem publish_sample_eq (broker : Nat → Int) (msg : String) :
    publish_sample broker msg =
      if broker 0 = MOSQ_ERR_SUCCESS then [BrokerCall.publish msg (broker 0)]
      else
        (if broker 0 = MOSQ_ERR_NO_CONN then
          [BrokerCall.publish msg (broker 0), BrokerCall.reconnect]
        else [BrokerCall.publish msg (broker 0)]) ++
        (if broker 1 = MOSQ_ERR_SUCCESS then [BrokerCall.publish msg (broker 1)]
        else if broker 1 = MOSQ_ERR_NO_CONN then
          [BrokerCall.publish msg (broker 1), BrokerCall.reconnect]
        else [BrokerCall.publish msg (broker 1)]) := by
  have h2 : publish_loop broker msg 2 = [] := by
    rw [publish_loop]; simp
  have h1 : publish_loop broker msg 1 =
      (if broker 1 = MOSQ_ERR_SUCCESS then [BrokerCall.publish msg (broker 1)]
        else if broker 1 = MOSQ_ERR_NO_CONN then
          [BrokerCall.publish msg (broker 1), BrokerCall.reconnect]
        else [BrokerCall.publish msg (broker 1)]) := by
    rw [publish_loop]; simp [h2]
  unfold publish_sample
  rw [publish_loop]
  simp only [Nat.lt_add_one, zero_add, h1, if_true, Nat.zero_lt_two]
  split_ifs <;> simp

/-- Claim C8. Whatever the broker returns, `publish_sample` returns after at most two
calls of `mosquitto_publish`; a successful call is the last call it makes, so the
message is delivered at most once.  When the first call returns `MOSQ_ERR_NO_CONN`
it calls `mosquitto_reconnect` and then `mosquitto_publish` exactly once more; when
that second call succeeds the message is delivered exactly once; when both calls
fail nothing is delivered and the function returns. -/
theorem publish_retry (broker : Nat → Int) (msg : String) :
    attempts (publish_sample broker msg) ≤ 2 ∧
      deliveries (publish_sample broker msg) ≤ 1 ∧
      (∀ c ∈ (publish_sample broker msg).dropLast,
        ∀ m, c ≠ BrokerCall.publish m MOSQ_ERR_SUCCESS) ∧
      (broker 0 = MOSQ_ERR_NO_CONN →
        (publish_sample broker msg).take 3 =
          [BrokerCall.publish msg MOSQ_ERR_NO_CONN, BrokerCall.reconnect,
            BrokerCall.publish msg (broker 1)] ∧
        attempts (publish_sample broker msg) = 2) ∧
      (broker 0 = MOSQ_ERR_NO_CONN → broker 1 = MOSQ_ERR_SUCCESS →
        publish_sample broker msg =
          [BrokerCall.publish msg MOSQ_ERR_NO_CONN, BrokerCall.reconnect,
            BrokerCall.publish msg MOSQ_ERR_SUCCESS] ∧
        deliveries (publish_sample broker msg) = 1) ∧
      (broker 0 ≠ MOSQ_ERR_SUCCESS → broker 1 ≠ MOSQ_ERR_SUCCESS →
        deliveries (publish_sample broker msg) = 0 ∧
        attempts (publish_sample broker msg) = 2) := by
  by_cases a0 : broker 0 = 0 <;> by_cases b0 : broker 0 = 4 <;>
    by_cases a1 : broker 1 = 0 <;> by_cases b1 : broker 1 = 4 <;>
    simp_all [publish_sample_eq, attempts, deliveries, MOSQ_ERR_SUCCESS, MOSQ_ERR_NO_CONN]

/-- Witness of C8: "not connected" on the first attempt, success on the second. -/
theorem publish_retry_witness :
    publish_sample reconnecting_broker "x" =
        [BrokerCall.publish "x" MOSQ_ERR_NO_CONN, BrokerCall.reconnect,
          BrokerCall.publish "x" MOSQ_ERR_SUCCESS] ∧
      deliveries (publish_sample reconnecting_broker "x") = 1 :=
  (publish_retry reconnecting_broker "x").2.2.2.2.1 (by decide) (by decide)

/-! ### Reset after a snapshot -/

/-- Claim C10 (counterexample). A reading of 1500 tenths at the boundary 60 emits a
snapshot; afterwards `sampleCount` is 0 and `next_period` is 120, but `dBSum`, `dBMin`
and `dBMax` are still 1500. -/
theorem reset_keeps_statistics :
    process_sample (startup 0) 1500 false 'A' 0 60 60 =
      ({ dBSum := 1500, dBMin := 1500, dBMax := 1500, sampleCount := 0, next_period := 120 },
        some { time := 60, avg := 1500, min := 1500, max := 1500, weight := 'A' }) := by
  decide

/-- Claim C10 (amended). Take a window that starts with `sampleCount == 0` and
consists of the readings `pre` that arrive before the boundary followed by the reading
`last` on which the snapshot is emitted (at most `INT_MAX` readings, each a
`uint16_t`).  Immediately after the snapshot `sampleCount` is 0 and `next_period` is
the boundary `get_next_period` computes from the current clock, a multiple of 60 later
than the clock and, when the clock has not gone backwards during the call, later than
the old boundary.  `dBSum`, `dBMin` and `dBMax` are not zeroed: `dBSum` still holds
the sum of the readings of the window modulo `2^32`, `dBMin` their minimum and `dBMax`
their maximum, as published in the snapshot. -/
theorem reset_after_snapshot (g : Globals) (pre : List Sample) (last : Sample)
    (h0 : g.sampleCount = 0) (hdB : ∀ s ∈ pre ++ [last], s.dB < 2 ^ 16)
    (hlen : (pre ++ [last]).length < 2 ^ 31)
    (hpre : ∀ s ∈ pre, s.t_check < g.next_period) (hlast : g.next_period ≤ last.t_check) :
    ∃ snap : Snapshot, (run g (pre ++ [last])).2 = [snap] ∧
      (run g (pre ++ [last])).1 =
        { dBSum := ((pre ++ [last]).map Sample.dB).sum % 2 ^ 32,
          dBMin := snap.min,
          dBMax := snap.max,
          sampleCount := 0,
          next_period := (get_next_period g last.t_next).next_period } ∧
      List.minimum ((pre ++ [last]).map Sample.dB) = (snap.min : WithTop Nat) ∧
      List.maximum ((pre ++ [last]).map Sample.dB) = (snap.max : WithBot Nat) ∧
      snap.time = g.next_period ∧
      snap.avg = (run g (pre ++ [last])).1.dBSum / (pre ++ [last]).length ∧
      (last.t_check ≤ last.t_next →
        g.next_period < (run g (pre ++ [last])).1.next_period) ∧
      last.t_next < (run g (pre ++ [last])).1.next_period ∧
      (60 : Int) ∣ (run g (pre ++ [last])).1.next_period := by
  obtain ⟨gA, hw, _, hrun⟩ := run_window g pre last h0 hdB hlen hpre hlast
  have hne : (pre ++ [last]).map Sample.dB ≠ [] := by simp
  have hgt := get_next_period_gt g last.t_next
  have hdvd := get_next_period_dvd g last.t_next
  have hc : to_uint32 gA.sampleCount = (pre ++ [last]).length := by
    rw [hw.count_uint32 (by simpa using hlen), List.length_map]
  have hpost : (run g (pre ++ [last])).1 =
      { dBSum := ((pre ++ [last]).map Sample.dB).sum % 2 ^ 32, dBMin := gA.dBMin,
        dBMax := gA.dBMax, sampleCount := 0,
        next_period := (get_next_period g last.t_next).next_period } := by
    rw [hrun, ← hw.sum hne]
    rfl
  refine ⟨_, by rw [hrun], hpost, ?_, ?_, rfl, ?_, ?_, ?_, ?_⟩
  · exact List.minimum_eq_coe_iff.2 ⟨hw.min_mem hne, hw.min_le⟩
  · exact List.maximum_eq_coe_iff.2 ⟨hw.max_mem hne, hw.le_max⟩
  · rw [hpost]
    show gA.dBSum / to_uint32 gA.sampleCount = _
    rw [hc, hw.sum hne]
  · intro hclock
    rw [hpost]
    show g.next_period < (get_next_period g last.t_next).next_period
    omega
  · rw [hpost]
    exact hgt
  · rw [hpost]
    exact hdvd

/-- Witness of C10 (amended): the readings 132, 724, 500 on globals with stale
statistics; afterwards `dBSum` is 1356, `dBMin` 132 and `dBMax` 724. -/
theorem reset_after_snapshot_witness :
    ∃ snap : Snapshot, (run stale (scenarioB_pre ++ [scenarioB_last])).2 = [snap] ∧
      (run stale (scenarioB_pre ++ [scenarioB_last])).1 =
        { dBSum := ((scenarioB_pre ++ [scenarioB_last]).map Sample.dB).sum % 2 ^ 32,
          dBMin := snap.min,
          dBMax := snap.max,
          sampleCount := 0,
          next_period := (get_next_period stale scenarioB_last.t_next).next_period } ∧
      List.minimum ((scenarioB_pre ++ [scenarioB_last]).map Sample.dB)
        = (snap.min : WithTop Nat) ∧
      List.maximum ((scenarioB_pre ++ [scenarioB_last]).map Sample.dB)
        = (snap.max : WithBot Nat) ∧
      snap.time = stale.next_period ∧
      snap.avg = (run stale (scenarioB_pre ++ [scenarioB_last])).1.dBSum
        / (scenarioB_pre ++ [scenarioB_last]).length ∧
      (scenarioB_last.t_check ≤ scenarioB_last.t_next →
        stale.next_period < (run stale (scenarioB_pre ++ [scenarioB_last])).1.next_period) ∧
      scenarioB_last.t_next < (run stale (scenarioB_pre ++ [scenarioB_last])).1.next_period ∧
      (60 : Int) ∣ (run stale (scenarioB_pre ++ [scenarioB_last])).1.next_period :=
  reset_after_snapshot stale scenarioB_pre scenarioB_last (by decide) (by decide)
    (by decide) (by decide) (by decide)

end AR844
